import Mathlib

/-!
Verification development for the Repolyzer commit-history analytics engine
(src/main.rs).  The core pass `gather_stats`, the post-pass derived metrics,
the pie-chart contributor ranking and the heat-grid symbol binning are
shallowly embedded below; machine integers (`u64`, `usize`) are modelled as
`Nat` with explicit wrap-around (`% 2 ^ 64`) where the source performs
unchecked subtraction or casts.  The commit stream is modelled as a list of
commits, each carrying the data the source reads from `git2`: an optional
author display name, the author timestamp in seconds, and an optional diff
against the first parent (absent for root commits).  Wall-clock capture at
the start of the pass is modelled as an explicit `current_time` parameter.
-/

namespace Repolyzer

/-- Sentinel author key used when a commit has no author name
(`UNKNOWN_AUTHOR` in main.rs). -/
def UNKNOWN_AUTHOR : String := ">UNKNOWN<"

/-- `SECONDS_PER_YEAR` constant from main.rs. -/
def SECONDS_PER_YEAR : Nat := 31536000

/-- `SECONDS_PER_DAY` constant from main.rs. -/
def SECONDS_PER_DAY : Nat := 86400

/-- `CHECKERBOARD_SYMBOL_AMOUNT` constant from main.rs (number of heat-grid
intensity levels; also the length of the `SYMBOLS` array). -/
def CHECKERBOARD_SYMBOL_AMOUNT : Nat := 5

/-- `NAMED_COMMITS_IN_CHART` constant local to `print_pie_chart`. -/
def NAMED_COMMITS_IN_CHART : Nat := 5

/-- A commit as seen by `gather_stats` through `git2`: optional author
display name, author timestamp (seconds since epoch, as read by
`commit.time().seconds()` and cast to `u64`), and the diff against the
first parent — `none` for a root commit (where `commit.parent(0)` errors).
A present diff carries `(deltas_count, insertions, deletions)`. -/
structure Commit where
  author_name : Option String
  timestamp : Nat
  parent_diff : Option (Nat × Nat × Nat)
deriving DecidableEq

/-- Parsed command-line flags (`AppArgs` in main.rs, minus the location). -/
structure AppArgs where
  general_overview : Bool
  extended_overview : Bool
  pie_chart : Bool
  commit_graph : Bool
  weekday_stats : Bool
deriving DecidableEq

/-- `RepositoryStats` from main.rs.  The `HashMap<String, u64>` of
contributors is modelled as an association list in iteration order;
the two fixed-size arrays are lists of length 365 and 7. -/
structure RepositoryStats where
  commit_count : Nat
  last_commit : Nat
  contributors : List (String × Nat)
  total_files_changes : Nat
  total_lines_inserted : Nat
  total_lines_removed : Nat
  commits_last_year : Nat
  longest_commit_streak : Nat
  current_commit_streak : Nat
  max_commits_a_day : Nat
  commits_per_day_last_year : List Nat
  commits_per_weekday : List Nat
deriving DecidableEq

/-- The local mutable state of the `gather_stats` loop: the stats record
plus the two local variables `prev_commit_time` and `current_streak`. -/
structure LoopState where
  stats : RepositoryStats
  prev_commit_time : Nat
  current_streak : Nat
deriving DecidableEq

/-- Truncation of a `Nat` to `u64` (models Rust `as u64` casts). -/
def u64 (n : Nat) : Nat := n % (2 ^ 64)

/-- Wrapping `u64` subtraction `a - b` (Rust release-mode semantics of
unsigned subtraction). -/
def u64wrapSub (a b : Nat) : Nat := (u64 a + (2 ^ 64 - u64 b)) % (2 ^ 64)

/-- `HashMap::get` on the association-list model: value at the first
occurrence of the key. -/
def hmLookup (m : List (String × Nat)) (k : String) : Option Nat :=
  (m.find? fun p => decide (p.1 = k)).map Prod.snd

/-- `HashMap::insert` on the association-list model: replace the value at
the first occurrence of the key, or append a fresh binding. -/
def hmInsert : List (String × Nat) → String → Nat → List (String × Nat)
  | [], k, v => [(k, v)]
  | p :: rest, k, v => if p.1 = k then (k, v) :: rest else p :: hmInsert rest k v

/-- The contributor update of main.rs lines 258-262:
`entry(author).or_insert(0)` followed by
`insert(author, get(author).unwrap() + 1)`. -/
def addContributor (m : List (String × Nat)) (a : String) : List (String × Nat) :=
  let m1 := if (hmLookup m a).isSome then m else hmInsert m a 0
  hmInsert m1 a ((hmLookup m1 a).getD 0 + 1)

/-- The unconditional per-commit updates (main.rs lines 246-268): commit
count, contributor tally, and last-commit timestamp maximum. -/
def baseStep (st : RepositoryStats) (c : Commit) : RepositoryStats :=
  let st1 := { st with commit_count := st.commit_count + 1 }
  let author := c.author_name.getD UNKNOWN_AUTHOR
  let st2 := { st1 with contributors := addContributor st1.contributors author }
  let ct := u64 c.timestamp
  if st2.last_commit < ct then { st2 with last_commit := ct } else st2

/-- The churn update (main.rs lines 288-290), applied only when the commit
has a first parent. -/
def churnStep (st : RepositoryStats) (d : Nat × Nat × Nat) : RepositoryStats :=
  { st with
    total_files_changes := st.total_files_changes + d.1,
    total_lines_inserted := st.total_lines_inserted + d.2.1,
    total_lines_removed := st.total_lines_removed + d.2.2 }

/-- Calendar-day slot of a timestamp: `(timestamp / 86400) % 365`
(main.rs line 297). -/
def dayOfYearIndex (t : Nat) : Nat := (t / SECONDS_PER_DAY) % 365

/-- Days-from-Monday weekday slot of a (nonnegative) timestamp, modelling
`DateTime::from_timestamp(t, 0).weekday().num_days_from_monday()`:
the epoch day 1970-01-01 was a Thursday, three days from Monday. -/
def weekdayIndex (t : Nat) : Nat := (t / SECONDS_PER_DAY + 3) % 7

/-- Increment the entry of `l` at index `i` (models `arr[i] += 1`). -/
def bumpAt (l : List Nat) (i : Nat) : List Nat := l.set i (l.getD i 0 + 1)

/-- The commit-graph block of the main loop (main.rs lines 293-311):
trailing-year calendar bucketing plus the `current_commit_streak`
tracking against the `prev_commit_time` anchor. -/
def commitGraphStep (current_time ct : Nat) (s : LoopState) : LoopState :=
  let stats :=
    if u64wrapSub current_time SECONDS_PER_YEAR < ct then
      { s.stats with
        commits_per_day_last_year :=
          bumpAt s.stats.commits_per_day_last_year (dayOfYearIndex ct) }
    else s.stats
  if s.prev_commit_time ≠ 0 ∧ u64wrapSub s.prev_commit_time SECONDS_PER_DAY < ct then
    { stats := stats, prev_commit_time := s.prev_commit_time,
      current_streak := s.current_streak + 1 }
  else
    let stats1 :=
      if stats.longest_commit_streak < s.current_streak then
        { stats with current_commit_streak := s.current_streak }
      else stats
    { stats := stats1, prev_commit_time := ct, current_streak := 0 }

/-- The weekday block of the main loop (main.rs lines 313-317). -/
def weekdayStep (ct : Nat) (st : RepositoryStats) : RepositoryStats :=
  { st with commits_per_weekday := bumpAt st.commits_per_weekday (weekdayIndex ct) }

/-- The blocks of the main loop that follow the extended-overview block
(commit-graph and weekday), each gated by its flag. -/
def restStep (args : AppArgs) (current_time ct : Nat) (s : LoopState) : LoopState :=
  let s2 := if args.commit_graph then commitGraphStep current_time ct s else s
  if args.weekday_stats then { s2 with stats := weekdayStep ct s2.stats } else s2

/-- One iteration of the `gather_stats` revwalk loop.  When the
extended overview is enabled and the commit has no first parent the source
executes `continue` (main.rs line 276), skipping every later block of the
iteration; the unconditional base updates have already run at that point. -/
def stepCommit (args : AppArgs) (current_time : Nat) (s : LoopState) (c : Commit) :
    LoopState :=
  let stats := baseStep s.stats c
  let ct := u64 c.timestamp
  match args.extended_overview, c.parent_diff with
  | true, none => { s with stats := stats }
  | true, some d => restStep args current_time ct { s with stats := churnStep stats d }
  | false, _ => restStep args current_time ct { s with stats := stats }

/-- `iter().max()` over a list of `Nat` (0 on the empty list; the source
array always has 365 entries). -/
def listMax (l : List Nat) : Nat := l.foldl Nat.max 0

/-- One step of the post-pass longest-streak scan (main.rs lines 331-340),
threading the running `current_streak` alongside the stats record whose
`longest_commit_streak` field the source compares against and updates. -/
def scanStatStep (p : Nat × RepositoryStats) (x : Nat) : Nat × RepositoryStats :=
  if 0 < x then (p.1 + 1, p.2)
  else
    (0,
      if p.2.longest_commit_streak < p.1 then
        { p.2 with longest_commit_streak := p.1 }
      else p.2)

/-- The derived pass of `gather_stats` (main.rs lines 320-341), run only
when the commit graph is enabled: max commits per day, yearly total, and
the longest-streak scan over the 365-slot array (with no flush of a run
still open at the end of the scan). -/
def postPass (args : AppArgs) (stats : RepositoryStats) : RepositoryStats :=
  if args.commit_graph then
    let st1 :=
      { stats with max_commits_a_day := listMax stats.commits_per_day_last_year }
    let st2 :=
      { st1 with
        commits_last_year :=
          st1.commits_last_year + st1.commits_per_day_last_year.sum }
    (st2.commits_per_day_last_year.foldl scanStatStep (0, st2)).2
  else stats

/-- The freshly initialised `RepositoryStats` (main.rs lines 214-230). -/
def initStats : RepositoryStats :=
  { commit_count := 0
    last_commit := 0
    contributors := []
    total_files_changes := 0
    total_lines_inserted := 0
    total_lines_removed := 0
    commits_last_year := 0
    longest_commit_streak := 0
    current_commit_streak := 0
    max_commits_a_day := 0
    commits_per_day_last_year := List.replicate 365 0
    commits_per_weekday := List.replicate 7 0 }

/-- Initial loop state: fresh stats, `prev_commit_time = 0`,
`current_streak = 0`. -/
def initLoopState : LoopState :=
  { stats := initStats, prev_commit_time := 0, current_streak := 0 }

/-- `gather_stats` over a commit stream: the single revwalk pass followed
by the derived pass.  `current_time` is the wall clock captured once at
the start of the pass. -/
def gather_stats (args : AppArgs) (current_time : Nat) (commits : List Commit) :
    RepositoryStats :=
  postPass args (commits.foldl (stepCommit args current_time) initLoopState).stats

/-- Sum of the values of the contributors map. -/
def sumValues (m : List (String × Nat)) : Nat := (m.map Prod.snd).sum

/-- Insert a contributor into a list sorted descending by commit count,
after every entry with a strictly larger or equal count (the stable order
produced by `sort_by(|a, b| b.1.cmp(a.1))` on Rust's stable sort). -/
def insertDescByCount (p : String × Nat) :
    List (String × Nat) → List (String × Nat)
  | [] => [p]
  | q :: rest => if q.2 ≤ p.2 then p :: q :: rest else q :: insertDescByCount p rest

/-- Stable descending-by-count sort of the contributor list (the result of
`top_contributors.sort_by(|a, b| b.1.cmp(a.1))` in `print_pie_chart`). -/
def sortDescByCount : List (String × Nat) → List (String × Nat)
  | [] => []
  | p :: rest => insertDescByCount p (sortDescByCount rest)

/-- The "Others" total of `print_pie_chart` (main.rs lines 401-404): the
counts of all contributors after the first `NAMED_COMMITS_IN_CHART` in the
map's iteration order — not in the sorted order. -/
def othersSum (m : List (String × Nat)) : Nat :=
  ((m.drop NAMED_COMMITS_IN_CHART).map Prod.snd).sum

/-- The labelled entries `print_pie_chart` draws: the sorted top
`NAMED_COMMITS_IN_CHART` contributors, plus an `"Others"` entry when the
iteration-order tail sum is positive (main.rs lines 395-408). -/
def pieEntries (m : List (String × Nat)) : List (String × Nat) :=
  let top := (sortDescByCount m).take NAMED_COMMITS_IN_CHART
  if 0 < othersSum m then top ++ [("Others", othersSum m)] else top

/-- The max-commits-per-day loop at the top of
`calculate_symbol_distribution` (main.rs lines 501-506). -/
def maxOfDays (l : List Nat) : Nat :=
  l.foldl (fun m c => if m < c then c else m) 0

/-- `calculate_symbol_distribution` (main.rs lines 499-515): boundaries
`[0, range_size, 2*range_size, 3*range_size, 4*range_size]` with
`range_size = max_commits_a_day / CHECKERBOARD_SYMBOL_AMOUNT` in
truncating integer division. -/
def calculate_symbol_distribution (stats : RepositoryStats) : List Nat :=
  let max_commits_a_day := maxOfDays stats.commits_per_day_last_year
  let range_size := max_commits_a_day / CHECKERBOARD_SYMBOL_AMOUNT
  [0, range_size, range_size * 2, range_size * 3, range_size * 4]

/-- The symbol-selection loop of `calculate_day_commit_graph`
(main.rs lines 559-565): first boundary index `j` with
`commits_on_day <= symbol_dist[j]`. -/
def symbolIndexAux : List Nat → Nat → Nat → Option Nat
  | [], _, _ => none
  | b :: rest, c, j => if c ≤ b then some j else symbolIndexAux rest c (j + 1)

/-- Intensity level assigned to a day's commit count by
`calculate_day_commit_graph`: the first matching boundary index, or the
highest level `SYMBOLS.len() - 1` when no boundary matches
(main.rs lines 559-569). -/
def symbolIndexFor (dist : List Nat) (c : Nat) : Nat :=
  match symbolIndexAux dist c 0 with
  | some j => j
  | none => CHECKERBOARD_SYMBOL_AMOUNT - 1

/-- The `Total lines (delta)` value printed by `print_extended_overview`
(main.rs lines 370-373): unguarded `usize` subtraction
`total_lines_inserted - total_lines_removed`, modelled with 64-bit
wrap-around. -/
def total_lines_delta (stats : RepositoryStats) : Nat :=
  u64wrapSub stats.total_lines_inserted stats.total_lines_removed

/-- One step of the longest-run scan on a plain `(current, best)` pair. -/
def runScanStep (p : Nat × Nat) (x : Nat) : Nat × Nat :=
  if 0 < x then (p.1 + 1, p.2) else (0, if p.2 < p.1 then p.1 else p.2)

/-- Longest run of nonzero slots, following the spec's words for §4.2: scan
the array in index order, a run being a maximal contiguous span of indices
with nonzero count, and take the length of the longest run found —
including a run still open when the scan reaches the end of the array. -/
def specLongestRun (l : List Nat) : Nat :=
  let p := l.foldl runScanStep (0, 0)
  Nat.max p.2 p.1

/-- Remove the trailing maximal run of nonzero entries of a list. -/
def dropTrailingNonzero (l : List Nat) : List Nat :=
  (l.reverse.dropWhile fun x => decide (0 < x)).reverse

/-- One step of the in-pass streak tracker on a plain
`(prev_commit_time, current_streak, current_commit_streak)` triple:
the anchor `prev_commit_time` is updated only on a reset, and a reset
records the running streak only when it is positive. -/
def streakStep (p : Nat × Nat × Nat) (t : Nat) : Nat × Nat × Nat :=
  if p.1 ≠ 0 ∧ u64wrapSub p.1 SECONDS_PER_DAY < t then (p.1, p.2.1 + 1, p.2.2)
  else (t, 0, if 0 < p.2.1 then p.2.1 else p.2.2)

/-- The value the in-pass streak tracker leaves in
`current_commit_streak` for a given stream of (u64) commit timestamps:
the running streak at the last positive-streak reset, with a streak still
open at the end of the stream never recorded. -/
def lastResetStreak (ts : List Nat) : Nat := (ts.foldl streakStep (0, 0, 0)).2.2

/-- The commit timestamps that actually reach the commit-graph block of the
loop: commits skipped by the root-commit `continue` of the
extended-overview block are removed, and timestamps are truncated to
`u64` as the source does. -/
def effectiveTimes (args : AppArgs) (cs : List Commit) : List Nat :=
  (cs.filter fun c => !(args.extended_overview && c.parent_diff.isNone)).map
    fun c => u64 c.timestamp

/-- Helper for `specCurrentStreakMax`: running counter compared against the
immediately preceding timestamp, retaining the maximum value attained. -/
def specStreakAux : Nat → Nat → Nat → List Nat → Nat
  | _, _, best, [] => best
  | prev, cur, best, t :: rest =>
    if u64wrapSub prev SECONDS_PER_DAY < u64 t then
      specStreakAux (u64 t) (cur + 1) (Nat.max best (cur + 1)) rest
    else specStreakAux (u64 t) 0 best rest

/-- The `current_commit_streak` the claim describes: for each commit after
the first, the counter increments when the commit's timestamp is within
one day of the immediately preceding commit's timestamp and resets
otherwise, and the maximum value attained is retained. -/
def specCurrentStreakMax : List Nat → Nat
  | [] => 0
  | t :: rest => specStreakAux (u64 t) 0 0 rest

/-! ### Generic list lemmas -/

theorem bumpAt_length (l : List Nat) (i : Nat) : (bumpAt l i).length = l.length := by
  simp [bumpAt]

theorem set_oob (l : List Nat) (i : Nat) (v : Nat) (h : l.length ≤ i) :
    l.set i v = l := by
  induction l generalizing i with
  | nil => rfl
  | cons a t ih =>
    cases i with
    | zero => simp at h
    | succ j =>
      simp only [List.set_cons_succ]
      rw [ih j (by simpa using h)]

theorem bumpAt_sum_of_lt (l : List Nat) (i : Nat) (h : i < l.length) :
    (bumpAt l i).sum = l.sum + 1 := by
  induction l generalizing i with
  | nil => simp at h
  | cons a t ih =>
    cases i with
    | zero => simp [bumpAt]; omega
    | succ j =>
      have hj : j < t.length := by simpa using h
      have := ih j hj
      simp only [bumpAt, List.getD_cons_succ, List.set_cons_succ, List.sum_cons] at *
      omega

theorem bumpAt_sum_le (l : List Nat) (i : Nat) : (bumpAt l i).sum ≤ l.sum + 1 := by
  by_cases h : i < l.length
  · rw [bumpAt_sum_of_lt l i h]
  · rw [bumpAt, set_oob l i _ (by omega)]
    omega

theorem foldl_max_init (l : List Nat) : ∀ a, a ≤ l.foldl Nat.max a := by
  induction l with
  | nil => simp
  | cons x t ih =>
    intro a
    exact le_trans (Nat.le_max_left a x) (ih (Nat.max a x))

theorem le_foldl_max_of_mem {x : Nat} {l : List Nat} (h : x ∈ l) :
    ∀ a, x ≤ l.foldl Nat.max a := by
  induction l with
  | nil => simp at h
  | cons y t ih =>
    intro a
    rcases List.mem_cons.mp h with rfl | hm
    · exact le_trans (Nat.le_max_right a x) (foldl_max_init t _)
    · exact ih hm _

theorem foldl_max_mem (l : List Nat) :
    ∀ a, l.foldl Nat.max a = a ∨ l.foldl Nat.max a ∈ l := by
  induction l with
  | nil => intro a; left; rfl
  | cons x t ih =>
    intro a
    rw [List.foldl_cons]
    rcases ih (Nat.max a x) with h | h
    · rw [h]
      by_cases hax : a ≤ x
      · right
        have hx : Nat.max a x = x := Nat.max_eq_right hax
        rw [hx]
        exact List.mem_cons_self x t
      · left
        exact Nat.max_eq_left (Nat.le_of_not_le hax)
    · right
      exact List.mem_cons_of_mem x h

theorem le_listMax_of_mem {x : Nat} {l : List Nat} (h : x ∈ l) : x ≤ listMax l :=
  le_foldl_max_of_mem h 0

theorem listMax_eq_zero_or_mem (l : List Nat) : listMax l = 0 ∨ listMax l ∈ l :=
  foldl_max_mem l 0

/-! ### Contributor-map lemmas -/

theorem sumValues_append (m m' : List (String × Nat)) :
    sumValues (m ++ m') = sumValues m + sumValues m' := by
  simp [sumValues]

theorem hmLookup_hmInsert_self (m : List (String × Nat)) (k : String) (v : Nat) :
    hmLookup (hmInsert m k v) k = some v := by
  induction m with
  | nil => simp [hmInsert, hmLookup]
  | cons p t ih =>
    by_cases h : p.1 = k
    · simp [hmInsert, h, hmLookup]
    · simpa [hmInsert, h, hmLookup] using ih

theorem hmLookup_hmInsert_ne (m : List (String × Nat)) (k a : String) (v : Nat)
    (h : a ≠ k) : hmLookup (hmInsert m a v) k = hmLookup m k := by
  induction m with
  | nil => simp [hmInsert, hmLookup, h]
  | cons p t ih =>
    by_cases hp : p.1 = a
    · have hpk : ¬p.1 = k := by rw [hp]; exact h
      rw [hmInsert, if_pos hp]
      unfold hmLookup
      rw [List.find?_cons_of_neg _ (by simpa using h),
        List.find?_cons_of_neg _ (by simpa using hpk)]
    · rw [hmInsert, if_neg hp]
      by_cases hk : p.1 = k
      · unfold hmLookup
        rw [List.find?_cons_of_pos _ (by simpa using hk),
          List.find?_cons_of_pos _ (by simpa using hk)]
      · unfold hmLookup
        rw [List.find?_cons_of_neg _ (by simpa using hk),
          List.find?_cons_of_neg _ (by simpa using hk)]
        exact ih

theorem hmInsert_absent (m : List (String × Nat)) (k : String) (v : Nat)
    (h : hmLookup m k = none) : hmInsert m k v = m ++ [(k, v)] := by
  induction m with
  | nil => rfl
  | cons p t ih =>
    by_cases hp : p.1 = k
    · simp [hmLookup, hp] at h
    · simp only [hmLookup, List.find?] at h
      rw [hmInsert, if_neg hp]
      simp only [hp, decide_eq_true_eq, if_neg] at h ⊢
      rw [ih (by simpa [hmLookup] using h)]
      simp

theorem hmInsert_sum (m : List (String × Nat)) (k : String) (v w : Nat)
    (h : hmLookup m k = some v) :
    sumValues (hmInsert m k w) + v = sumValues m + w := by
  induction m with
  | nil => simp [hmLookup] at h
  | cons p t ih =>
    by_cases hp : p.1 = k
    · have hv : p.2 = v := by
        rw [hmLookup, List.find?_cons_of_pos _ (by simpa using hp)] at h
        simpa using h
      rw [hmInsert, if_pos hp]
      simp only [sumValues, List.map_cons, List.sum_cons]
      omega
    · have ht : hmLookup t k = some v := by
        rw [hmLookup, List.find?_cons_of_neg _ (by simpa using hp)] at h
        exact h
      rw [hmInsert, if_neg hp]
      have := ih ht
      simp only [sumValues, List.map_cons, List.sum_cons] at this ⊢
      omega

theorem addContributor_eq_present (m : List (String × Nat)) (a : String) (v : Nat)
    (h : hmLookup m a = some v) : addContributor m a = hmInsert m a (v + 1) := by
  simp [addContributor, h]

theorem addContributor_eq_absent (m : List (String × Nat)) (a : String)
    (h : hmLookup m a = none) :
    addContributor m a = hmInsert (hmInsert m a 0) a 1 := by
  simp [addContributor, h, hmLookup_hmInsert_self]

theorem addContributor_sum (m : List (String × Nat)) (a : String) :
    sumValues (addContributor m a) = sumValues m + 1 := by
  cases h : hmLookup m a with
  | some v =>
    rw [addContributor_eq_present m a v h]
    have := hmInsert_sum m a v (v + 1) h
    omega
  | none =>
    rw [addContributor_eq_absent m a h]
    have h0 : hmLookup (hmInsert m a 0) a = some 0 := hmLookup_hmInsert_self m a 0
    have h1 := hmInsert_sum (hmInsert m a 0) a 0 1 h0
    rw [hmInsert_absent m a 0 h] at h1 ⊢
    rw [sumValues_append] at h1
    have h2 : sumValues [(a, 0)] = 0 := rfl
    omega

theorem hmLookup_addContributor_self (m : List (String × Nat)) (a : String) :
    hmLookup (addContributor m a) a = some ((hmLookup m a).getD 0 + 1) := by
  cases h : hmLookup m a with
  | some v =>
    rw [addContributor_eq_present m a v h, hmLookup_hmInsert_self]
    rfl
  | none =>
    rw [addContributor_eq_absent m a h, hmLookup_hmInsert_self]
    rfl

theorem hmLookup_addContributor_ne (m : List (String × Nat)) (a k : String)
    (h : a ≠ k) : hmLookup (addContributor m a) k = hmLookup m k := by
  cases hl : hmLookup m a with
  | some v =>
    rw [addContributor_eq_present m a v hl]
    exact hmLookup_hmInsert_ne m k a _ h
  | none =>
    rw [addContributor_eq_absent m a hl]
    rw [hmLookup_hmInsert_ne _ k a _ h, hmLookup_hmInsert_ne m k a 0 h]

/-! ### Frame lemmas for the loop components -/

theorem weekdayIndex_lt (t : Nat) : weekdayIndex t < 7 :=
  Nat.mod_lt _ (by omega)

theorem dayOfYearIndex_lt (t : Nat) : dayOfYearIndex t < 365 :=
  Nat.mod_lt _ (by omega)

@[simp] theorem baseStep_count (st : RepositoryStats) (c : Commit) :
    (baseStep st c).commit_count = st.commit_count + 1 := by
  simp only [baseStep]
  split <;> rfl

@[simp] theorem baseStep_contributors (st : RepositoryStats) (c : Commit) :
    (baseStep st c).contributors
      = addContributor st.contributors (c.author_name.getD UNKNOWN_AUTHOR) := by
  simp only [baseStep]
  split <;> rfl

theorem baseStep_last_commit (st : RepositoryStats) (c : Commit) :
    (baseStep st c).last_commit = Nat.max st.last_commit (u64 c.timestamp) := by
  simp only [baseStep]
  split <;> rename_i h
  · exact (Nat.max_eq_right (Nat.le_of_lt h)).symm
  · exact (Nat.max_eq_left (Nat.le_of_not_lt h)).symm

@[simp] theorem baseStep_longest (st : RepositoryStats) (c : Commit) :
    (baseStep st c).longest_commit_streak = st.longest_commit_streak := by
  simp only [baseStep]
  split <;> rfl

@[simp] theorem baseStep_ccs (st : RepositoryStats) (c : Commit) :
    (baseStep st c).current_commit_streak = st.current_commit_streak := by
  simp only [baseStep]
  split <;> rfl

@[simp] theorem baseStep_cly (st : RepositoryStats) (c : Commit) :
    (baseStep st c).commits_last_year = st.commits_last_year := by
  simp only [baseStep]
  split <;> rfl

@[simp] theorem baseStep_max (st : RepositoryStats) (c : Commit) :
    (baseStep st c).max_commits_a_day = st.max_commits_a_day := by
  simp only [baseStep]
  split <;> rfl

@[simp] theorem baseStep_day (st : RepositoryStats) (c : Commit) :
    (baseStep st c).commits_per_day_last_year = st.commits_per_day_last_year := by
  simp only [baseStep]
  split <;> rfl

@[simp] theorem baseStep_weekday (st : RepositoryStats) (c : Commit) :
    (baseStep st c).commits_per_weekday = st.commits_per_weekday := by
  simp only [baseStep]
  split <;> rfl

@[simp] theorem baseStep_files (st : RepositoryStats) (c : Commit) :
    (baseStep st c).total_files_changes = st.total_files_changes := by
  simp only [baseStep]
  split <;> rfl

@[simp] theorem baseStep_ins (st : RepositoryStats) (c : Commit) :
    (baseStep st c).total_lines_inserted = st.total_lines_inserted := by
  simp only [baseStep]
  split <;> rfl

@[simp] theorem baseStep_rem (st : RepositoryStats) (c : Commit) :
    (baseStep st c).total_lines_removed = st.total_lines_removed := by
  simp only [baseStep]
  split <;> rfl

@[simp] theorem churnStep_count (st : RepositoryStats) (d : Nat × Nat × Nat) :
    (churnStep st d).commit_count = st.commit_count := rfl

@[simp] theorem churnStep_contributors (st : RepositoryStats) (d : Nat × Nat × Nat) :
    (churnStep st d).contributors = st.contributors := rfl

@[simp] theorem churnStep_last_commit (st : RepositoryStats) (d : Nat × Nat × Nat) :
    (churnStep st d).last_commit = st.last_commit := rfl

@[simp] theorem churnStep_longest (st : RepositoryStats) (d : Nat × Nat × Nat) :
    (churnStep st d).longest_commit_streak = st.longest_commit_streak := rfl

@[simp] theorem churnStep_ccs (st : RepositoryStats) (d : Nat × Nat × Nat) :
    (churnStep st d).current_commit_streak = st.current_commit_streak := rfl

@[simp] theorem churnStep_cly (st : RepositoryStats) (d : Nat × Nat × Nat) :
    (churnStep st d).commits_last_year = st.commits_last_year := rfl

@[simp] theorem churnStep_max (st : RepositoryStats) (d : Nat × Nat × Nat) :
    (churnStep st d).max_commits_a_day = st.max_commits_a_day := rfl

@[simp] theorem churnStep_day (st : RepositoryStats) (d : Nat × Nat × Nat) :
    (churnStep st d).commits_per_day_last_year = st.commits_per_day_last_year := rfl

@[simp] theorem churnStep_weekday (st : RepositoryStats) (d : Nat × Nat × Nat) :
    (churnStep st d).commits_per_weekday = st.commits_per_weekday := rfl

@[simp] theorem weekdayStep_count (ct : Nat) (st : RepositoryStats) :
    (weekdayStep ct st).commit_count = st.commit_count := rfl

@[simp] theorem weekdayStep_contributors (ct : Nat) (st : RepositoryStats) :
    (weekdayStep ct st).contributors = st.contributors := rfl

@[simp] theorem weekdayStep_longest (ct : Nat) (st : RepositoryStats) :
    (weekdayStep ct st).longest_commit_streak = st.longest_commit_streak := rfl

@[simp] theorem weekdayStep_ccs (ct : Nat) (st : RepositoryStats) :
    (weekdayStep ct st).current_commit_streak = st.current_commit_streak := rfl

@[simp] theorem weekdayStep_cly (ct : Nat) (st : RepositoryStats) :
    (weekdayStep ct st).commits_last_year = st.commits_last_year := rfl

@[simp] theorem weekdayStep_max (ct : Nat) (st : RepositoryStats) :
    (weekdayStep ct st).max_commits_a_day = st.max_commits_a_day := rfl

@[simp] theorem weekdayStep_day (ct : Nat) (st : RepositoryStats) :
    (weekdayStep ct st).commits_per_day_last_year
      = st.commits_per_day_last_year := rfl

@[simp] theorem weekdayStep_weekday (ct : Nat) (st : RepositoryStats) :
    (weekdayStep ct st).commits_per_weekday
      = bumpAt st.commits_per_weekday (weekdayIndex ct) := rfl

@[simp] theorem commitGraphStep_count (now ct : Nat) (s : LoopState) :
    (commitGraphStep now ct s).stats.commit_count = s.stats.commit_count := by
  simp only [commitGraphStep]
  split_ifs <;> rfl

@[simp] theorem commitGraphStep_contributors (now ct : Nat) (s : LoopState) :
    (commitGraphStep now ct s).stats.contributors = s.stats.contributors := by
  simp only [commitGraphStep]
  split_ifs <;> rfl

@[simp] theorem commitGraphStep_longest (now ct : Nat) (s : LoopState) :
    (commitGraphStep now ct s).stats.longest_commit_streak
      = s.stats.longest_commit_streak := by
  simp only [commitGraphStep]
  split_ifs <;> rfl

@[simp] theorem commitGraphStep_cly (now ct : Nat) (s : LoopState) :
    (commitGraphStep now ct s).stats.commits_last_year
      = s.stats.commits_last_year := by
  simp only [commitGraphStep]
  split_ifs <;> rfl

@[simp] theorem commitGraphStep_max (now ct : Nat) (s : LoopState) :
    (commitGraphStep now ct s).stats.max_commits_a_day
      = s.stats.max_commits_a_day := by
  simp only [commitGraphStep]
  split_ifs <;> rfl

@[simp] theorem commitGraphStep_weekday (now ct : Nat) (s : LoopState) :
    (commitGraphStep now ct s).stats.commits_per_weekday
      = s.stats.commits_per_weekday := by
  simp only [commitGraphStep]
  split_ifs <;> rfl

theorem commitGraphStep_day (now ct : Nat) (s : LoopState) :
    (commitGraphStep now ct s).stats.commits_per_day_last_year
      = if u64wrapSub now SECONDS_PER_YEAR < ct then
          bumpAt s.stats.commits_per_day_last_year (dayOfYearIndex ct)
        else s.stats.commits_per_day_last_year := by
  simp only [commitGraphStep]
  split_ifs <;> rfl

theorem commitGraphStep_triple (now ct : Nat) (s : LoopState)
    (hL : s.stats.longest_commit_streak = 0) :
    ((commitGraphStep now ct s).prev_commit_time,
      (commitGraphStep now ct s).current_streak,
      (commitGraphStep now ct s).stats.current_commit_streak)
      = streakStep (s.prev_commit_time, s.current_streak,
          s.stats.current_commit_streak) ct := by
  simp only [commitGraphStep, streakStep]
  split_ifs <;> simp_all

theorem stepCommit_eq_skip (args : AppArgs) (now : Nat) (s : LoopState)
    (c : Commit) (h1 : args.extended_overview = true) (h2 : c.parent_diff = none) :
    stepCommit args now s c = { s with stats := baseStep s.stats c } := by
  simp only [stepCommit, h1, h2]

theorem stepCommit_eq_churn (args : AppArgs) (now : Nat) (s : LoopState)
    (c : Commit) (d : Nat × Nat × Nat) (h1 : args.extended_overview = true)
    (h2 : c.parent_diff = some d) :
    stepCommit args now s c
      = restStep args now (u64 c.timestamp)
          { s with stats := churnStep (baseStep s.stats c) d } := by
  simp only [stepCommit, h1, h2]

theorem stepCommit_eq_plain (args : AppArgs) (now : Nat) (s : LoopState)
    (c : Commit) (h1 : args.extended_overview = false) :
    stepCommit args now s c
      = restStep args now (u64 c.timestamp) { s with stats := baseStep s.stats c } := by
  cases hpd : c.parent_diff <;> simp only [stepCommit, h1, hpd]

@[simp] theorem restStep_count (args : AppArgs) (now ct : Nat) (s : LoopState) :
    (restStep args now ct s).stats.commit_count = s.stats.commit_count := by
  simp only [restStep]
  cases args.commit_graph <;> cases args.weekday_stats <;> simp

@[simp] theorem restStep_contributors (args : AppArgs) (now ct : Nat)
    (s : LoopState) :
    (restStep args now ct s).stats.contributors = s.stats.contributors := by
  simp only [restStep]
  cases args.commit_graph <;> cases args.weekday_stats <;> simp

@[simp] theorem restStep_longest (args : AppArgs) (now ct : Nat) (s : LoopState) :
    (restStep args now ct s).stats.longest_commit_streak
      = s.stats.longest_commit_streak := by
  simp only [restStep]
  cases args.commit_graph <;> cases args.weekday_stats <;> simp

@[simp] theorem restStep_cly (args : AppArgs) (now ct : Nat) (s : LoopState) :
    (restStep args now ct s).stats.commits_last_year
      = s.stats.commits_last_year := by
  simp only [restStep]
  cases args.commit_graph <;> cases args.weekday_stats <;> simp

@[simp] theorem restStep_max (args : AppArgs) (now ct : Nat) (s : LoopState) :
    (restStep args now ct s).stats.max_commits_a_day
      = s.stats.max_commits_a_day := by
  simp only [restStep]
  cases args.commit_graph <;> cases args.weekday_stats <;> simp

theorem restStep_day_length (args : AppArgs) (now ct : Nat) (s : LoopState) :
    (restStep args now ct s).stats.commits_per_day_last_year.length
      = s.stats.commits_per_day_last_year.length := by
  simp only [restStep]
  cases args.commit_graph <;> cases args.weekday_stats <;>
    simp [commitGraphStep_day] <;> split_ifs <;> simp [bumpAt_length]

theorem restStep_day_sum_le (args : AppArgs) (now ct : Nat) (s : LoopState) :
    (restStep args now ct s).stats.commits_per_day_last_year.sum
      ≤ s.stats.commits_per_day_last_year.sum + 1 := by
  simp only [restStep]
  cases args.commit_graph <;> cases args.weekday_stats <;>
    simp [commitGraphStep_day] <;> split_ifs <;> simp [bumpAt_sum_le]

theorem restStep_weekday_length (args : AppArgs) (now ct : Nat) (s : LoopState) :
    (restStep args now ct s).stats.commits_per_weekday.length
      = s.stats.commits_per_weekday.length := by
  simp only [restStep]
  cases args.commit_graph <;> cases args.weekday_stats <;>
    simp [bumpAt_length]

theorem restStep_weekday_sum (args : AppArgs) (now ct : Nat) (s : LoopState)
    (hw : args.weekday_stats = true)
    (hlen : s.stats.commits_per_weekday.length = 7) :
    (restStep args now ct s).stats.commits_per_weekday.sum
      = s.stats.commits_per_weekday.sum + 1 := by
  simp only [restStep, hw, if_true]
  cases args.commit_graph <;>
    simp only [Bool.false_eq_true, ite_true, ite_false, weekdayStep_weekday,
      commitGraphStep_weekday] <;>
    rw [bumpAt_sum_of_lt] <;>
    simp [hlen, weekdayIndex_lt]

/-! ### Frame lemmas for a whole pass over the stream -/

theorem foldl_step_count (args : AppArgs) (now : Nat) :
    ∀ (cs : List Commit) (s : LoopState),
      (cs.foldl (stepCommit args now) s).stats.commit_count
        = s.stats.commit_count + cs.length := by
  intro cs
  induction cs with
  | nil => intro s; rfl
  | cons c t ih =>
    intro s
    rw [List.foldl_cons, ih]
    have hc : (stepCommit args now s c).stats.commit_count
        = s.stats.commit_count + 1 := by
      rcases hext : args.extended_overview with _ | _
      · rw [stepCommit_eq_plain args now s c hext]; simp
      · rcases hpd : c.parent_diff with _ | d
        · rw [stepCommit_eq_skip args now s c hext hpd]; simp
        · rw [stepCommit_eq_churn args now s c d hext hpd]; simp
    rw [hc]
    simp [List.length_cons]
    omega

theorem foldl_step_longest (args : AppArgs) (now : Nat) :
    ∀ (cs : List Commit) (s : LoopState),
      (cs.foldl (stepCommit args now) s).stats.longest_commit_streak
        = s.stats.longest_commit_streak := by
  intro cs
  induction cs with
  | nil => intro s; rfl
  | cons c t ih =>
    intro s
    rw [List.foldl_cons, ih]
    rcases hext : args.extended_overview with _ | _
    · rw [stepCommit_eq_plain args now s c hext]; simp
    · rcases hpd : c.parent_diff with _ | d
      · rw [stepCommit_eq_skip args now s c hext hpd]; simp
      · rw [stepCommit_eq_churn args now s c d hext hpd]; simp

theorem foldl_step_cly (args : AppArgs) (now : Nat) :
    ∀ (cs : List Commit) (s : LoopState),
      (cs.foldl (stepCommit args now) s).stats.commits_last_year
        = s.stats.commits_last_year := by
  intro cs
  induction cs with
  | nil => intro s; rfl
  | cons c t ih =>
    intro s
    rw [List.foldl_cons, ih]
    rcases hext : args.extended_overview with _ | _
    · rw [stepCommit_eq_plain args now s c hext]; simp
    · rcases hpd : c.parent_diff with _ | d
      · rw [stepCommit_eq_skip args now s c hext hpd]; simp
      · rw [stepCommit_eq_churn args now s c d hext hpd]; simp

theorem foldl_step_day_length (args : AppArgs) (now : Nat) :
    ∀ (cs : List Commit) (s : LoopState),
      (cs.foldl (stepCommit args now) s).stats.commits_per_day_last_year.length
        = s.stats.commits_per_day_last_year.length := by
  intro cs
  induction cs with
  | nil => intro s; rfl
  | cons c t ih =>
    intro s
    rw [List.foldl_cons, ih]
    rcases hext : args.extended_overview with _ | _
    · rw [stepCommit_eq_plain args now s c hext, restStep_day_length]; simp
    · rcases hpd : c.parent_diff with _ | d
      · rw [stepCommit_eq_skip args now s c hext hpd]; simp
      · rw [stepCommit_eq_churn args now s c d hext hpd, restStep_day_length]; simp

theorem foldl_step_weekday_length (args : AppArgs) (now : Nat) :
    ∀ (cs : List Commit) (s : LoopState),
      (cs.foldl (stepCommit args now) s).stats.commits_per_weekday.length
        = s.stats.commits_per_weekday.length := by
  intro cs
  induction cs with
  | nil => intro s; rfl
  | cons c t ih =>
    intro s
    rw [List.foldl_cons, ih]
    rcases hext : args.extended_overview with _ | _
    · rw [stepCommit_eq_plain args now s c hext, restStep_weekday_length]; simp
    · rcases hpd : c.parent_diff with _ | d
      · rw [stepCommit_eq_skip args now s c hext hpd]; simp
      · rw [stepCommit_eq_churn args now s c d hext hpd, restStep_weekday_length]
        simp

theorem foldl_step_contr_sum (args : AppArgs) (now : Nat) :
    ∀ (cs : List Commit) (s : LoopState),
      sumValues (cs.foldl (stepCommit args now) s).stats.contributors
        = sumValues s.stats.contributors + cs.length := by
  intro cs
  induction cs with
  | nil => intro s; rfl
  | cons c t ih =>
    intro s
    rw [List.foldl_cons, ih]
    have hc : (stepCommit args now s c).stats.contributors
        = addContributor s.stats.contributors
            (c.author_name.getD UNKNOWN_AUTHOR) := by
      rcases hext : args.extended_overview with _ | _
      · rw [stepCommit_eq_plain args now s c hext]; simp
      · rcases hpd : c.parent_diff with _ | d
        · rw [stepCommit_eq_skip args now s c hext hpd]; simp
        · rw [stepCommit_eq_churn args now s c d hext hpd]; simp
    rw [hc, addContributor_sum]
    simp [List.length_cons]
    omega

theorem foldl_step_day_sum_le (args : AppArgs) (now : Nat) :
    ∀ (cs : List Commit) (s : LoopState),
      (cs.foldl (stepCommit args now) s).stats.commits_per_day_last_year.sum
        ≤ s.stats.commits_per_day_last_year.sum + cs.length := by
  intro cs
  induction cs with
  | nil => intro s; simp
  | cons c t ih =>
    intro s
    rw [List.foldl_cons]
    have h1 := ih (stepCommit args now s c)
    have h2 : (stepCommit args now s c).stats.commits_per_day_last_year.sum
        ≤ s.stats.commits_per_day_last_year.sum + 1 := by
      rcases hext : args.extended_overview with _ | _
      · rw [stepCommit_eq_plain args now s c hext]
        have := restStep_day_sum_le args now (u64 c.timestamp)
          { s with stats := baseStep s.stats c }
        simpa using this
      · rcases hpd : c.parent_diff with _ | d
        · rw [stepCommit_eq_skip args now s c hext hpd]; simp
        · rw [stepCommit_eq_churn args now s c d hext hpd]
          have := restStep_day_sum_le args now (u64 c.timestamp)
            { s with stats := churnStep (baseStep s.stats c) d }
          simpa using this
    simp only [List.length_cons]
    omega

theorem stepCommit_contributors (args : AppArgs) (now : Nat) (s : LoopState)
    (c : Commit) :
    (stepCommit args now s c).stats.contributors
      = addContributor s.stats.contributors (c.author_name.getD UNKNOWN_AUTHOR) := by
  rcases hext : args.extended_overview with _ | _
  · rw [stepCommit_eq_plain args now s c hext]; simp
  · rcases hpd : c.parent_diff with _ | d
    · rw [stepCommit_eq_skip args now s c hext hpd]; simp
    · rw [stepCommit_eq_churn args now s c d hext hpd]; simp

theorem stepCommit_weekday_length (args : AppArgs) (now : Nat) (s : LoopState)
    (c : Commit) :
    (stepCommit args now s c).stats.commits_per_weekday.length
      = s.stats.commits_per_weekday.length :=
  foldl_step_weekday_length args now [c] s

theorem foldl_step_weekday_sum (args : AppArgs) (now : Nat)
    (hw : args.weekday_stats = true) :
    ∀ (cs : List Commit) (s : LoopState),
      (args.extended_overview = false ∨ ∀ c ∈ cs, c.parent_diff ≠ none) →
      s.stats.commits_per_weekday.length = 7 →
      (cs.foldl (stepCommit args now) s).stats.commits_per_weekday.sum
        = s.stats.commits_per_weekday.sum + cs.length := by
  intro cs
  induction cs with
  | nil => intro s _ _; rfl
  | cons c t ih =>
    intro s h2 hlen
    rw [List.foldl_cons]
    have hlen' : (stepCommit args now s c).stats.commits_per_weekday.length = 7 := by
      rw [stepCommit_weekday_length]; exact hlen
    have h2t : args.extended_overview = false ∨ ∀ x ∈ t, x.parent_diff ≠ none := by
      rcases h2 with h | h
      · exact Or.inl h
      · exact Or.inr fun x hx => h x (List.mem_cons_of_mem c hx)
    have hstep : (stepCommit args now s c).stats.commits_per_weekday.sum
        = s.stats.commits_per_weekday.sum + 1 := by
      rcases hext : args.extended_overview with _ | _
      · rw [stepCommit_eq_plain args now s c hext]
        have := restStep_weekday_sum args now (u64 c.timestamp)
          { s with stats := baseStep s.stats c } hw (by simpa using hlen)
        simpa using this
      · rcases h2 with h | h
        · rw [hext] at h; cases h
        · have hne := h c (List.mem_cons_self c t)
          rcases hpd : c.parent_diff with _ | d
          · exact absurd hpd hne
          · rw [stepCommit_eq_churn args now s c d hext hpd]
            have := restStep_weekday_sum args now (u64 c.timestamp)
              { s with stats := churnStep (baseStep s.stats c) d } hw
              (by simpa using hlen)
            simpa using this
    rw [ih (stepCommit args now s c) h2t hlen', hstep]
    simp only [List.length_cons]
    omega

theorem foldl_step_sentinel (args : AppArgs) (now : Nat) :
    ∀ (cs : List Commit) (s : LoopState),
      (∀ c ∈ cs, c.author_name ≠ some UNKNOWN_AUTHOR) →
      (hmLookup (cs.foldl (stepCommit args now) s).stats.contributors
          UNKNOWN_AUTHOR).getD 0
        = (hmLookup s.stats.contributors UNKNOWN_AUTHOR).getD 0
          + (cs.filter fun c => c.author_name.isNone).length := by
  intro cs
  induction cs with
  | nil => intro s _; rfl
  | cons c t ih =>
    intro s h
    have ht : ∀ x ∈ t, x.author_name ≠ some UNKNOWN_AUTHOR :=
      fun x hx => h x (List.mem_cons_of_mem c hx)
    rw [List.foldl_cons, ih (stepCommit args now s c) ht, stepCommit_contributors]
    cases han : c.author_name with
    | none =>
      rw [show (none : Option String).getD UNKNOWN_AUTHOR = UNKNOWN_AUTHOR from rfl]
      rw [hmLookup_addContributor_self]
      simp only [List.filter_cons, han, Option.isNone_none, if_true,
        List.length_cons, Option.getD_some]
      omega
    | some n =>
      have hn : n ≠ UNKNOWN_AUTHOR := by
        intro he
        exact h c (List.mem_cons_self c t) (by rw [han, he])
      rw [show (some n).getD UNKNOWN_AUTHOR = n from rfl]
      rw [hmLookup_addContributor_ne _ _ _ hn]
      simp [List.filter_cons, han]

/-! ### Post-pass characterization -/

theorem foldl_scanStatStep (l : List Nat) :
    ∀ (cur : Nat) (st : RepositoryStats),
      (l.foldl scanStatStep (cur, st)).2
        = { st with
            longest_commit_streak :=
              (l.foldl runScanStep (cur, st.longest_commit_streak)).2 } := by
  induction l with
  | nil => intro cur st; rfl
  | cons x t ih =>
    intro cur st
    rw [List.foldl_cons, List.foldl_cons]
    by_cases hx : 0 < x
    · rw [show scanStatStep (cur, st) x = (cur + 1, st) by
        simp [scanStatStep, hx]]
      rw [show runScanStep (cur, st.longest_commit_streak) x
          = (cur + 1, st.longest_commit_streak) by simp [runScanStep, hx]]
      exact ih (cur + 1) st
    · rw [show scanStatStep (cur, st) x
          = (0, if st.longest_commit_streak < cur then
              { st with longest_commit_streak := cur } else st) by
        simp [scanStatStep, hx]]
      rw [show runScanStep (cur, st.longest_commit_streak) x
          = (0, if st.longest_commit_streak < cur then cur
              else st.longest_commit_streak) by simp [runScanStep, hx]]
      by_cases hlt : st.longest_commit_streak < cur
      · rw [if_pos hlt, if_pos hlt]
        exact ih 0 { st with longest_commit_streak := cur }
      · rw [if_neg hlt, if_neg hlt]
        exact ih 0 st

theorem postPass_graph (args : AppArgs) (st : RepositoryStats)
    (h : args.commit_graph = true) :
    (postPass args st).max_commits_a_day = listMax st.commits_per_day_last_year ∧
    (postPass args st).commits_last_year
      = st.commits_last_year + st.commits_per_day_last_year.sum ∧
    (postPass args st).commits_per_day_last_year = st.commits_per_day_last_year ∧
    (postPass args st).commits_per_weekday = st.commits_per_weekday ∧
    (postPass args st).commit_count = st.commit_count ∧
    (postPass args st).contributors = st.contributors ∧
    (postPass args st).current_commit_streak = st.current_commit_streak ∧
    (postPass args st).longest_commit_streak
      = (st.commits_per_day_last_year.foldl runScanStep
          (0, st.longest_commit_streak)).2 := by
  simp only [postPass, h, if_true]
  rw [foldl_scanStatStep]
  refine ⟨rfl, rfl, rfl, rfl, rfl, rfl, rfl, rfl⟩

theorem postPass_no_graph (args : AppArgs) (st : RepositoryStats)
    (h : args.commit_graph = false) : postPass args st = st := by
  simp [postPass, h]

theorem postPass_contributors (args : AppArgs) (st : RepositoryStats) :
    (postPass args st).contributors = st.contributors := by
  rcases hg : args.commit_graph with _ | _
  · rw [postPass_no_graph args st hg]
  · exact (postPass_graph args st hg).2.2.2.2.2.1

theorem postPass_count (args : AppArgs) (st : RepositoryStats) :
    (postPass args st).commit_count = st.commit_count := by
  rcases hg : args.commit_graph with _ | _
  · rw [postPass_no_graph args st hg]
  · exact (postPass_graph args st hg).2.2.2.2.1

theorem postPass_weekday (args : AppArgs) (st : RepositoryStats) :
    (postPass args st).commits_per_weekday = st.commits_per_weekday := by
  rcases hg : args.commit_graph with _ | _
  · rw [postPass_no_graph args st hg]
  · exact (postPass_graph args st hg).2.2.2.1

theorem postPass_day (args : AppArgs) (st : RepositoryStats) :
    (postPass args st).commits_per_day_last_year
      = st.commits_per_day_last_year := by
  rcases hg : args.commit_graph with _ | _
  · rw [postPass_no_graph args st hg]
  · exact (postPass_graph args st hg).2.2.1

/-! ### Claim C1 -/

/-- Claim C1: after the accumulation pass, the values of the contributors
map sum to `commit_count`; a commit without an author name is tallied under
the `UNKNOWN_AUTHOR` sentinel key, so that (when no real author carries the
sentinel name) the sentinel's count is exactly the number of
authorless commits. -/
theorem C1_contributors_sum_and_sentinel (args : AppArgs) (now : Nat)
    (cs : List Commit) (h : ∀ c ∈ cs, c.author_name ≠ some UNKNOWN_AUTHOR) :
    sumValues (gather_stats args now cs).contributors
        = (gather_stats args now cs).commit_count ∧
    (hmLookup (gather_stats args now cs).contributors UNKNOWN_AUTHOR).getD 0
        = (cs.filter fun c => c.author_name.isNone).length := by
  unfold gather_stats
  rw [postPass_contributors, postPass_count]
  constructor
  · rw [foldl_step_contr_sum args now cs initLoopState,
      foldl_step_count args now cs initLoopState]
    rfl
  · rw [foldl_step_sentinel args now cs initLoopState h]
    have h0 : (hmLookup initLoopState.stats.contributors UNKNOWN_AUTHOR).getD 0
        = 0 := rfl
    omega

def w1args : AppArgs :=
  { general_overview := true, extended_overview := false, pie_chart := false,
    commit_graph := false, weekday_stats := false }

def w1cs : List Commit :=
  [{ author_name := none, timestamp := 100, parent_diff := none },
   { author_name := some ("Alice"), timestamp := 200, parent_diff := none },
   { author_name := some ("Alice"), timestamp := 300, parent_diff := none }]

/-- Witness for C1 at a concrete three-commit stream with one authorless
commit. -/
theorem C1_witness :
    (∀ c ∈ w1cs, c.author_name ≠ some UNKNOWN_AUTHOR) ∧
    (sumValues (gather_stats w1args 0 w1cs).contributors
        = (gather_stats w1args 0 w1cs).commit_count ∧
     (hmLookup (gather_stats w1args 0 w1cs).contributors UNKNOWN_AUTHOR).getD 0
        = (w1cs.filter fun c => c.author_name.isNone).length) :=
  ⟨by decide, C1_contributors_sum_and_sentinel w1args 0 w1cs (by decide)⟩

/-! ### Claim C2 -/

theorem dropTrailingNonzero_append_pos (ys : List Nat) (x : Nat) (hx : 0 < x) :
    dropTrailingNonzero (ys ++ [x]) = dropTrailingNonzero ys := by
  unfold dropTrailingNonzero
  rw [List.reverse_append]
  simp [List.dropWhile_cons, hx]

theorem dropTrailingNonzero_append_zero (ys : List Nat) :
    dropTrailingNonzero (ys ++ [0]) = ys ++ [0] := by
  unfold dropTrailingNonzero
  rw [List.reverse_append]
  simp [List.dropWhile_cons]

theorem codeScan_eq_spec (l : List Nat) :
    (l.foldl runScanStep (0, 0)).2 = specLongestRun (dropTrailingNonzero l) := by
  induction l using List.reverseRecOn with
  | nil => rfl
  | append_singleton ys x ih =>
    rcases Nat.eq_zero_or_pos x with hx | hx
    · subst hx
      rw [dropTrailingNonzero_append_zero]
      unfold specLongestRun
      rw [List.foldl_append]
      simp only [List.foldl_cons, List.foldl_nil]
      set p := List.foldl runScanStep (0, 0) ys
      show (runScanStep p 0).2 = Nat.max (runScanStep p 0).2 (runScanStep p 0).1
      rw [show runScanStep p 0 = (0, if p.2 < p.1 then p.1 else p.2) by
        simp [runScanStep]]
      exact (Nat.max_zero _).symm
    · rw [dropTrailingNonzero_append_pos ys x hx, ← ih]
      rw [List.foldl_append]
      simp [runScanStep, hx]

theorem gather_loop_longest_zero (args : AppArgs) (now : Nat) (cs : List Commit) :
    (cs.foldl (stepCommit args now) initLoopState).stats.longest_commit_streak
      = 0 := by
  rw [foldl_step_longest]
  rfl

/-- Claim C2 (amended): with the commit graph enabled,
`longest_commit_streak` is the length of the longest maximal contiguous
nonzero run of the 365-slot per-day array that is terminated by a
zero-count slot inside the array: a run still open at the final index 364
is never flushed into the result, so the scan value coincides with the
spec's longest-run value computed on the array with its trailing nonzero
run removed. -/
theorem C2_longest_streak_amended (args : AppArgs) (now : Nat) (cs : List Commit)
    (h : args.commit_graph = true) :
    (gather_stats args now cs).longest_commit_streak
      = specLongestRun (dropTrailingNonzero
          ((gather_stats args now cs).commits_per_day_last_year)) := by
  unfold gather_stats
  obtain ⟨_, _, hday, _, _, _, _, hlongest⟩ :=
    postPass_graph args (cs.foldl (stepCommit args now) initLoopState).stats h
  rw [hlongest, hday, gather_loop_longest_zero args now cs]
  exact codeScan_eq_spec _

def argsCG : AppArgs :=
  { general_overview := true, extended_overview := false, pie_chart := false,
    commit_graph := true, weekday_stats := false }

def day364Commit : Commit :=
  { author_name := some ("A"), timestamp := 31449600, parent_diff := none }

theorem restStep_day (args : AppArgs) (now ct : Nat) (s : LoopState) :
    (restStep args now ct s).stats.commits_per_day_last_year
      = if args.commit_graph = true ∧ u64wrapSub now SECONDS_PER_YEAR < ct then
          bumpAt s.stats.commits_per_day_last_year (dayOfYearIndex ct)
        else s.stats.commits_per_day_last_year := by
  simp only [restStep]
  cases hcg : args.commit_graph <;> cases hw : args.weekday_stats <;>
    simp [commitGraphStep_day]

theorem replicate_getD_zero (n i : Nat) :
    (List.replicate n (0 : Nat)).getD i 0 = 0 := by
  induction n generalizing i with
  | zero => cases i <;> rfl
  | succ m ih =>
    cases i with
    | zero => rfl
    | succ j => simp [List.replicate, ih j]

theorem set_replicate_last (n : Nat) :
    (List.replicate (n + 1) (0 : Nat)).set n 1 = List.replicate n 0 ++ [1] := by
  induction n with
  | zero => rfl
  | succ m ih =>
    show (0 :: List.replicate (m + 1) 0).set (m + 1) 1
      = (0 :: List.replicate m 0) ++ [1]
    rw [List.set_cons_succ, ih]
    rfl

theorem foldl_runScan_replicate_zero (n : Nat) :
    (List.replicate n (0 : Nat)).foldl runScanStep (0, 0) = (0, 0) := by
  induction n with
  | zero => rfl
  | succ m ih =>
    show (List.replicate m 0).foldl runScanStep (runScanStep (0, 0) 0) = (0, 0)
    rw [show runScanStep (0, 0) 0 = (0, 0) by simp [runScanStep]]
    exact ih

theorem specLongestRun_replicate_zero (n : Nat) :
    specLongestRun (List.replicate n 0) = 0 := by
  unfold specLongestRun
  rw [foldl_runScan_replicate_zero]
  rfl

theorem dropTrailingNonzero_replicate_zero (n : Nat) :
    dropTrailingNonzero (List.replicate n 0) = List.replicate n 0 := by
  unfold dropTrailingNonzero
  rw [List.reverse_replicate]
  cases n with
  | zero => rfl
  | succ m =>
    show ((0 :: List.replicate m 0).dropWhile fun x => decide (0 < x)).reverse
      = List.replicate (m + 1) 0
    rw [List.dropWhile_cons_of_neg (by simp)]
    rw [show (0 : Nat) :: List.replicate m 0 = List.replicate (m + 1) 0 from rfl]
    rw [List.reverse_replicate]

theorem C2_cex_day_array :
    (gather_stats argsCG 31536000 [day364Commit]).commits_per_day_last_year
      = List.replicate 364 0 ++ [1] := by
  unfold gather_stats
  rw [postPass_day]
  show (stepCommit argsCG 31536000 initLoopState
      day364Commit).stats.commits_per_day_last_year = _
  rw [stepCommit_eq_plain argsCG 31536000 initLoopState day364Commit rfl]
  rw [restStep_day]
  rw [if_pos ⟨rfl, by decide⟩]
  rw [show dayOfYearIndex (u64 day364Commit.timestamp) = 364 from by decide]
  show bumpAt (List.replicate 365 0) 364 = _
  unfold bumpAt
  rw [replicate_getD_zero]
  exact set_replicate_last 364

/-- Counterexample to C2 as stated: a single commit landing in calendar
slot 364 (timestamp `364 * 86400`, inside the trailing-year window of
`current_time = 31536000`) yields a per-day array whose only nonzero run
extends to the final index 364.  The claimed value — the length of the
longest run, runs ending at index 364 included — is 1, but the code
computes `longest_commit_streak = 0`. -/
theorem C2_counterexample :
    (gather_stats argsCG 31536000 [day364Commit]).commits_per_day_last_year
        = List.replicate 364 0 ++ [1] ∧
    (gather_stats argsCG 31536000 [day364Commit]).longest_commit_streak = 0 ∧
    specLongestRun
        ((gather_stats argsCG 31536000 [day364Commit]).commits_per_day_last_year)
      = 1 := by
  refine ⟨C2_cex_day_array, ?_, ?_⟩
  · unfold gather_stats
    obtain ⟨_, _, hday, _, _, _, _, hlongest⟩ :=
      postPass_graph argsCG
        (([day364Commit].foldl (stepCommit argsCG 31536000)
          initLoopState)).stats rfl
    rw [hlongest, gather_loop_longest_zero argsCG 31536000 [day364Commit],
      codeScan_eq_spec]
    have harr : (([day364Commit].foldl (stepCommit argsCG 31536000)
        initLoopState)).stats.commits_per_day_last_year
        = List.replicate 364 0 ++ [1] := by
      have := C2_cex_day_array
      unfold gather_stats at this
      rwa [postPass_day] at this
    rw [harr, dropTrailingNonzero_append_pos _ 1 (by omega),
      dropTrailingNonzero_replicate_zero, specLongestRun_replicate_zero]
  · rw [C2_cex_day_array]
    unfold specLongestRun
    rw [List.foldl_append, foldl_runScan_replicate_zero]
    rfl

/-- Witness for the amended C2 on the empty stream with the commit graph
enabled. -/
theorem C2_witness :
    argsCG.commit_graph = true ∧
    (gather_stats argsCG 0 []).longest_commit_streak
      = specLongestRun (dropTrailingNonzero
          ((gather_stats argsCG 0 []).commits_per_day_last_year)) :=
  ⟨rfl, C2_longest_streak_amended argsCG 0 [] rfl⟩

/-! ### Claim C3 -/

theorem restStep_triple (args : AppArgs) (now ct : Nat) (s : LoopState)
    (hg : args.commit_graph = true) (hL : s.stats.longest_commit_streak = 0) :
    ((restStep args now ct s).prev_commit_time,
     (restStep args now ct s).current_streak,
     (restStep args now ct s).stats.current_commit_streak)
      = streakStep (s.prev_commit_time, s.current_streak,
          s.stats.current_commit_streak) ct := by
  simp only [restStep, hg, if_true]
  cases hw : args.weekday_stats
  · simp only [Bool.false_eq_true, if_false, ite_false]
    exact commitGraphStep_triple now ct s hL
  · simp only [if_true, ite_true]
    have h := commitGraphStep_triple now ct s hL
    simpa using h

theorem stepCommit_longest_pres (args : AppArgs) (now : Nat) (s : LoopState)
    (c : Commit) :
    (stepCommit args now s c).stats.longest_commit_streak
      = s.stats.longest_commit_streak :=
  foldl_step_longest args now [c] s

theorem foldl_step_triple (args : AppArgs) (now : Nat)
    (hg : args.commit_graph = true) :
    ∀ (cs : List Commit) (s : LoopState),
      s.stats.longest_commit_streak = 0 →
      ((cs.foldl (stepCommit args now) s).prev_commit_time,
       (cs.foldl (stepCommit args now) s).current_streak,
       (cs.foldl (stepCommit args now) s).stats.current_commit_streak)
        = (effectiveTimes args cs).foldl streakStep
            (s.prev_commit_time, s.current_streak,
              s.stats.current_commit_streak) := by
  intro cs
  induction cs with
  | nil => intro s _; rfl
  | cons c t ih =>
    intro s hL
    have hL' : (stepCommit args now s c).stats.longest_commit_streak = 0 := by
      rw [stepCommit_longest_pres]; exact hL
    rw [List.foldl_cons]
    rcases hext : args.extended_overview with _ | _
    · have heff : effectiveTimes args (c :: t)
          = u64 c.timestamp :: effectiveTimes args t := by
        simp [effectiveTimes, hext, List.filter_cons]
      rw [heff, List.foldl_cons, ih _ hL']
      have hstep : ((stepCommit args now s c).prev_commit_time,
          (stepCommit args now s c).current_streak,
          (stepCommit args now s c).stats.current_commit_streak)
          = streakStep (s.prev_commit_time, s.current_streak,
              s.stats.current_commit_streak) (u64 c.timestamp) := by
        rw [stepCommit_eq_plain args now s c hext]
        have := restStep_triple args now (u64 c.timestamp)
          { s with stats := baseStep s.stats c } hg (by simpa using hL)
        simpa using this
      rw [hstep]
    · rcases hpd : c.parent_diff with _ | d
      · have heff : effectiveTimes args (c :: t) = effectiveTimes args t := by
          simp [effectiveTimes, hext, List.filter_cons, hpd]
        rw [heff, ih _ hL']
        rw [stepCommit_eq_skip args now s c hext hpd]
        simp
      · have heff : effectiveTimes args (c :: t)
            = u64 c.timestamp :: effectiveTimes args t := by
          simp [effectiveTimes, hext, List.filter_cons, hpd]
        rw [heff, List.foldl_cons, ih _ hL']
        have hstep : ((stepCommit args now s c).prev_commit_time,
            (stepCommit args now s c).current_streak,
            (stepCommit args now s c).stats.current_commit_streak)
            = streakStep (s.prev_commit_time, s.current_streak,
                s.stats.current_commit_streak) (u64 c.timestamp) := by
          rw [stepCommit_eq_churn args now s c d hext hpd]
          have := restStep_triple args now (u64 c.timestamp)
            { s with stats := churnStep (baseStep s.stats c) d } hg
            (by simpa using hL)
          simpa using this
        rw [hstep]

/-- Claim C3 (amended): with the commit graph enabled,
`current_commit_streak` is the value the running streak counter had at the
last reset at which it was positive — the counter increments when the
commit's (u64) timestamp is greater than the anchor timestamp minus one
day, the anchor being the timestamp of the commit at the previous reset
(updated only on resets, not per commit), and any streak still open when
the stream ends is never recorded; commits skipped by the root-commit
`continue` of the extended-overview block do not reach the tracker. -/
theorem C3_current_streak_amended (args : AppArgs) (now : Nat) (cs : List Commit)
    (h : args.commit_graph = true) :
    (gather_stats args now cs).current_commit_streak
      = lastResetStreak (effectiveTimes args cs) := by
  unfold gather_stats
  rw [(postPass_graph args _ h).2.2.2.2.2.2.1]
  have htr := foldl_step_triple args now h cs initLoopState rfl
  have h3 := congrArg (fun p : Nat × Nat × Nat => p.2.2) htr
  dsimp only at h3
  exact h3

def csC3 : List Commit :=
  [{ author_name := some ("A"), timestamp := 864000, parent_diff := none },
   { author_name := some ("A"), timestamp := 820800, parent_diff := none },
   { author_name := some ("A"), timestamp := 777600, parent_diff := none },
   { author_name := some ("A"), timestamp := 777500, parent_diff := none }]

/-- Counterexample to C3 as stated: four commits spaced 12h, 12h and 100s
apart (walked newest-first).  A counter that compares each commit against
its immediate predecessor and retains its maximum reaches 3, but the code
compares against the anchor of the last reset and only records a positive
streak at a reset, leaving `current_commit_streak = 1`. -/
theorem C3_counterexample :
    (gather_stats argsCG 2000000000 csC3).current_commit_streak = 1 ∧
    specCurrentStreakMax (csC3.map fun c => c.timestamp) = 3 := by
  constructor
  · unfold gather_stats
    rw [(postPass_graph argsCG _ rfl).2.2.2.2.2.2.1]
    have htr := foldl_step_triple argsCG 2000000000 rfl csC3 initLoopState rfl
    have h3 := congrArg (fun p : Nat × Nat × Nat => p.2.2) htr
    dsimp only at h3
    rw [h3]
    decide
  · decide

/-- Witness for the amended C3 on the empty stream with the commit graph
enabled. -/
theorem C3_witness :
    argsCG.commit_graph = true ∧
    (gather_stats argsCG 0 []).current_commit_streak
      = lastResetStreak (effectiveTimes argsCG []) :=
  ⟨rfl, C3_current_streak_amended argsCG 0 [] rfl⟩

/-! ### Claim C4 -/

/-- Claim C4 (amended): with churn statistics requested, a root commit
(no first parent) is not an error, but the `continue` skips not only the
churn contribution: every later block of that loop iteration is skipped
too, so the calendar-day bucket, the streak tracker state and the weekday
slot are all left unchanged for that commit, while the unconditional
updates that precede the churn block — commit count, contributor tally and
last-commit maximum — still occur. -/
theorem C4_root_commit_amended (args : AppArgs) (now : Nat) (s : LoopState)
    (c : Commit) (h1 : args.extended_overview = true)
    (h2 : c.parent_diff = none) :
    (stepCommit args now s c).prev_commit_time = s.prev_commit_time ∧
    (stepCommit args now s c).current_streak = s.current_streak ∧
    (stepCommit args now s c).stats.commits_per_weekday
      = s.stats.commits_per_weekday ∧
    (stepCommit args now s c).stats.commits_per_day_last_year
      = s.stats.commits_per_day_last_year ∧
    (stepCommit args now s c).stats.current_commit_streak
      = s.stats.current_commit_streak ∧
    (stepCommit args now s c).stats.total_files_changes
      = s.stats.total_files_changes ∧
    (stepCommit args now s c).stats.total_lines_inserted
      = s.stats.total_lines_inserted ∧
    (stepCommit args now s c).stats.total_lines_removed
      = s.stats.total_lines_removed ∧
    (stepCommit args now s c).stats.commit_count = s.stats.commit_count + 1 ∧
    (stepCommit args now s c).stats.contributors
      = addContributor s.stats.contributors
          (c.author_name.getD UNKNOWN_AUTHOR) ∧
    (stepCommit args now s c).stats.last_commit
      = Nat.max s.stats.last_commit (u64 c.timestamp) := by
  rw [stepCommit_eq_skip args now s c h1 h2]
  refine ⟨rfl, rfl, ?_, ?_, ?_, ?_, ?_, ?_, ?_, ?_, ?_⟩ <;>
    simp [baseStep_last_commit]

def argsAllOn : AppArgs :=
  { general_overview := true, extended_overview := true, pie_chart := true,
    commit_graph := true, weekday_stats := true }

def rootCommit : Commit :=
  { author_name := some ("Alice"), timestamp := 1700000000, parent_diff := none }

/-- Counterexample to C4 as stated: with every feature flag enabled, a
single root commit inside the trailing-year window leaves the weekday
histogram and the per-day calendar array untouched (the `continue` skips
those blocks), although the claim says those per-commit updates still
occur; only the commit count (and the other base updates) happen. -/
theorem C4_counterexample :
    (gather_stats argsAllOn 1700000100 [rootCommit]).commit_count = 1 ∧
    (gather_stats argsAllOn 1700000100 [rootCommit]).commits_per_weekday
        = List.replicate 7 0 ∧
    (gather_stats argsAllOn 1700000100 [rootCommit]).commits_per_day_last_year
        = List.replicate 365 0 ∧
    u64wrapSub 1700000100 SECONDS_PER_YEAR < u64 rootCommit.timestamp := by
  have hstep : [rootCommit].foldl (stepCommit argsAllOn 1700000100) initLoopState
      = { initLoopState with stats := baseStep initLoopState.stats rootCommit } :=
    stepCommit_eq_skip argsAllOn 1700000100 initLoopState rootCommit rfl rfl
  unfold gather_stats
  rw [postPass_count, postPass_weekday, postPass_day, hstep]
  refine ⟨?_, ?_, ?_, by decide⟩
  · show (baseStep initLoopState.stats rootCommit).commit_count = 1
    rw [baseStep_count]
    rfl
  · show (baseStep initLoopState.stats rootCommit).commits_per_weekday
      = List.replicate 7 0
    rw [baseStep_weekday]
    rfl
  · show (baseStep initLoopState.stats rootCommit).commits_per_day_last_year
      = List.replicate 365 0
    rw [baseStep_day]
    rfl

/-- Witness for the amended C4: the frame facts instantiated at the
initial loop state and a concrete root commit. -/
theorem C4_witness :
    argsAllOn.extended_overview = true ∧ rootCommit.parent_diff = none ∧
    ((stepCommit argsAllOn 0 initLoopState rootCommit).prev_commit_time
        = initLoopState.prev_commit_time ∧
     (stepCommit argsAllOn 0 initLoopState rootCommit).current_streak
        = initLoopState.current_streak ∧
     (stepCommit argsAllOn 0 initLoopState rootCommit).stats.commits_per_weekday
        = initLoopState.stats.commits_per_weekday ∧
     (stepCommit argsAllOn 0 initLoopState
          rootCommit).stats.commits_per_day_last_year
        = initLoopState.stats.commits_per_day_last_year ∧
     (stepCommit argsAllOn 0 initLoopState
          rootCommit).stats.current_commit_streak
        = initLoopState.stats.current_commit_streak ∧
     (stepCommit argsAllOn 0 initLoopState rootCommit).stats.total_files_changes
        = initLoopState.stats.total_files_changes ∧
     (stepCommit argsAllOn 0 initLoopState
          rootCommit).stats.total_lines_inserted
        = initLoopState.stats.total_lines_inserted ∧
     (stepCommit argsAllOn 0 initLoopState rootCommit).stats.total_lines_removed
        = initLoopState.stats.total_lines_removed ∧
     (stepCommit argsAllOn 0 initLoopState rootCommit).stats.commit_count
        = initLoopState.stats.commit_count + 1 ∧
     (stepCommit argsAllOn 0 initLoopState rootCommit).stats.contributors
        = addContributor initLoopState.stats.contributors
            (rootCommit.author_name.getD UNKNOWN_AUTHOR) ∧
     (stepCommit argsAllOn 0 initLoopState rootCommit).stats.last_commit
        = Nat.max initLoopState.stats.last_commit (u64 rootCommit.timestamp)) :=
  ⟨rfl, rfl, C4_root_commit_amended argsAllOn 0 initLoopState rootCommit rfl rfl⟩

/-! ### Claim C5 -/

/-- Claim C5 (amended): when weekday statistics are enabled, the seven
weekday buckets sum to `commit_count`, provided the extended overview
(churn) is disabled or every commit has a first parent — a root commit
encountered with churn enabled is skipped by the `continue` before the
weekday block, and then the sum falls short of `commit_count`. -/
theorem C5_weekday_sum_amended (args : AppArgs) (now : Nat) (cs : List Commit)
    (hw : args.weekday_stats = true)
    (h2 : args.extended_overview = false ∨ ∀ c ∈ cs, c.parent_diff ≠ none) :
    ((gather_stats args now cs).commits_per_weekday).sum
      = (gather_stats args now cs).commit_count := by
  unfold gather_stats
  rw [postPass_weekday, postPass_count]
  rw [foldl_step_weekday_sum args now hw cs initLoopState h2 rfl]
  rw [foldl_step_count]
  rfl

def argsC5 : AppArgs :=
  { general_overview := true, extended_overview := true, pie_chart := false,
    commit_graph := false, weekday_stats := true }

def rootCommit5 : Commit :=
  { author_name := some ("Bob"), timestamp := 1700000050, parent_diff := none }

/-- Counterexample to C5 as stated: weekday statistics and the extended
overview both enabled, one root commit.  The claim promises
`sum(commits_per_weekday) = commit_count` regardless of the other flags,
but the root-commit `continue` of the churn block skips the weekday slot:
the sum stays 0 while `commit_count` is 1. -/
theorem C5_counterexample :
    argsC5.weekday_stats = true ∧
    (gather_stats argsC5 1700000100 [rootCommit5]).commit_count = 1 ∧
    ((gather_stats argsC5 1700000100 [rootCommit5]).commits_per_weekday).sum
      = 0 := by
  have hstep : [rootCommit5].foldl (stepCommit argsC5 1700000100) initLoopState
      = { initLoopState with stats := baseStep initLoopState.stats rootCommit5 } :=
    stepCommit_eq_skip argsC5 1700000100 initLoopState rootCommit5 rfl rfl
  unfold gather_stats
  rw [postPass_count, postPass_weekday, hstep]
  refine ⟨rfl, ?_, ?_⟩
  · show (baseStep initLoopState.stats rootCommit5).commit_count = 1
    rw [baseStep_count]
    rfl
  · show ((baseStep initLoopState.stats rootCommit5).commits_per_weekday).sum = 0
    rw [baseStep_weekday]
    rfl

def w5args : AppArgs :=
  { general_overview := true, extended_overview := false, pie_chart := false,
    commit_graph := false, weekday_stats := true }

/-- Witness for the amended C5 on the empty stream with weekday statistics
enabled and the extended overview disabled. -/
theorem C5_witness :
    w5args.weekday_stats = true ∧
    (w5args.extended_overview = false ∨
      ∀ c ∈ ([] : List Commit), c.parent_diff ≠ none) ∧
    ((gather_stats w5args 0 []).commits_per_weekday).sum
      = (gather_stats w5args 0 []).commit_count :=
  ⟨rfl, Or.inl rfl, C5_weekday_sum_amended w5args 0 [] rfl (Or.inl rfl)⟩

/-! ### Claim C6 -/

theorem insertDescByCount_perm (p : String × Nat) (l : List (String × Nat)) :
    (insertDescByCount p l).Perm (p :: l) := by
  induction l with
  | nil => exact List.Perm.refl _
  | cons q t ih =>
    unfold insertDescByCount
    split_ifs with h
    · exact List.Perm.refl _
    · exact (ih.cons q).trans (List.Perm.swap p q t)

theorem sortDescByCount_perm (l : List (String × Nat)) :
    (sortDescByCount l).Perm l := by
  induction l with
  | nil => exact List.Perm.refl _
  | cons p t ih => exact (insertDescByCount_perm p _).trans (ih.cons p)

theorem insertDescByCount_pairwise (p : String × Nat) (l : List (String × Nat))
    (h : List.Pairwise (fun a b => b.2 ≤ a.2) l) :
    List.Pairwise (fun a b => b.2 ≤ a.2) (insertDescByCount p l) := by
  induction l with
  | nil => simp [insertDescByCount]
  | cons q t ih =>
    rcases List.pairwise_cons.mp h with ⟨hq, ht⟩
    unfold insertDescByCount
    split_ifs with hle
    · refine List.pairwise_cons.mpr ⟨?_, h⟩
      intro x hx
      rcases List.mem_cons.mp hx with rfl | hx'
      · exact hle
      · exact le_trans (hq x hx') hle
    · refine List.pairwise_cons.mpr ⟨?_, ih ht⟩
      intro x hx
      have hx' := (insertDescByCount_perm p t).mem_iff.mp hx
      rcases List.mem_cons.mp hx' with rfl | hx''
      · exact Nat.le_of_not_le hle
      · exact hq x hx''

theorem sortDescByCount_pairwise (l : List (String × Nat)) :
    List.Pairwise (fun a b => b.2 ≤ a.2) (sortDescByCount l) := by
  induction l with
  | nil => exact List.Pairwise.nil
  | cons p t ih => exact insertDescByCount_pairwise p _ ih

theorem othersSum_eq (m : List (String × Nat)) :
    othersSum m + sumValues (m.take NAMED_COMMITS_IN_CHART) = sumValues m := by
  unfold othersSum sumValues
  conv_rhs => rw [← List.take_append_drop NAMED_COMMITS_IN_CHART m]
  rw [List.map_append, List.sum_append]
  omega

/-- Claim C6 (amended): the displayed ranking is the (up to) 5 contributors
with the highest counts — the first 5 of a stable descending-by-count sort,
so the list is sorted descending — plus a synthetic `"Others"` entry that
is present iff its count is positive; but that count is the sum of the
counts of all contributors after the first 5 in the map's *iteration*
order (`contributors.iter().skip(5)`), i.e. the total minus the first five
iteration-order counts, which need not be the contributors excluded from
the sorted top-5 selection. -/
theorem C6_pie_ranking_amended (m : List (String × Nat)) :
    othersSum m + sumValues (m.take NAMED_COMMITS_IN_CHART) = sumValues m ∧
    List.Pairwise (fun a b => b.2 ≤ a.2)
      ((sortDescByCount m).take NAMED_COMMITS_IN_CHART) ∧
    (sortDescByCount m).Perm m ∧
    pieEntries m
      = (if 0 < othersSum m then
          (sortDescByCount m).take NAMED_COMMITS_IN_CHART
            ++ [("Others", othersSum m)]
        else (sortDescByCount m).take NAMED_COMMITS_IN_CHART) :=
  ⟨othersSum_eq m,
   List.Pairwise.sublist (List.take_sublist _ _) (sortDescByCount_pairwise m),
   sortDescByCount_perm m, rfl⟩

def m6 : List (String × Nat) :=
  [("F", 1), ("A", 10), ("B", 8), ("C", 5), ("D", 3), ("E", 2), ("G", 1)]

/-- Counterexample to C6 as stated: for the iteration-order map
`[F:1, A:10, B:8, C:5, D:3, E:2, G:1]` the sorted top-5 is
`[A, B, C, D, E]`, so the contributors excluded from the top-5 selection
are F and G with total 2 — but the code's `"Others"` entry carries 3, the
sum over the map's iteration order after the first five entries (E and G). -/
theorem C6_counterexample :
    pieEntries m6
      = [("A", 10), ("B", 8), ("C", 5), ("D", 3), ("E", 2), ("Others", 3)] ∧
    (((sortDescByCount m6).drop NAMED_COMMITS_IN_CHART).map Prod.snd).sum
      = 2 :=
  ⟨by decide, by decide⟩

/-! ### Claim C7 -/

theorem calculate_symbol_distribution_eq (stats : RepositoryStats) :
    calculate_symbol_distribution stats
      = [0, maxOfDays stats.commits_per_day_last_year / 5,
         maxOfDays stats.commits_per_day_last_year / 5 * 2,
         maxOfDays stats.commits_per_day_last_year / 5 * 3,
         maxOfDays stats.commits_per_day_last_year / 5 * 4] := rfl

theorem symbolIndexFor_quint (r c : Nat) :
    symbolIndexFor [0, r, r * 2, r * 3, r * 4] c
      = if c ≤ 0 then 0 else if c ≤ r then 1 else if c ≤ r * 2 then 2
        else if c ≤ r * 3 then 3 else 4 := by
  simp only [symbolIndexFor, symbolIndexAux]
  split_ifs <;> rfl

/-- Claim C7: the intensity level of a day is the lowest boundary index
`i` with `day_count <= boundary[i]` (the level is below 5, is minimal
among matching boundaries, and matches its boundary unless no boundary
matches, in which case it is the highest level 4); and when
`max_commits_in_a_day < 5` the truncating division collapses every
boundary to 0, sending every zero day to level 0 and every nonzero day to
level 4. -/
theorem C7_symbol_binning (stats : RepositoryStats) (c : Nat) :
    symbolIndexFor (calculate_symbol_distribution stats) c < 5 ∧
    (∀ i, i < 5 →
      c ≤ (calculate_symbol_distribution stats).getD i 0 →
      symbolIndexFor (calculate_symbol_distribution stats) c ≤ i) ∧
    (c ≤ (calculate_symbol_distribution stats).getD
        (symbolIndexFor (calculate_symbol_distribution stats) c) 0 ∨
      ∀ i, i < 5 → (calculate_symbol_distribution stats).getD i 0 < c) ∧
    ((∀ i, i < 5 → (calculate_symbol_distribution stats).getD i 0 < c) →
      symbolIndexFor (calculate_symbol_distribution stats) c = 4) ∧
    (maxOfDays stats.commits_per_day_last_year < 5 →
      calculate_symbol_distribution stats = [0, 0, 0, 0, 0] ∧
      (c = 0 → symbolIndexFor (calculate_symbol_distribution stats) c = 0) ∧
      (0 < c → symbolIndexFor (calculate_symbol_distribution stats) c = 4)) := by
  simp only [calculate_symbol_distribution_eq, symbolIndexFor_quint]
  refine ⟨?_, ?_, ?_, ?_, ?_⟩
  · split_ifs <;> omega
  · intro i hi hc
    interval_cases i <;>
      simp only [List.getD_cons_zero, List.getD_cons_succ] at hc <;>
      split_ifs <;> omega
  · split_ifs with h1 h2 h3 h4
    · left
      simpa using h1
    · left
      simpa using h2
    · left
      simpa using h3
    · left
      simpa using h4
    · by_cases h5 : c ≤ maxOfDays stats.commits_per_day_last_year / 5 * 4
      · left
        simpa using h5
      · right
        intro i hi
        interval_cases i <;>
          simp only [List.getD_cons_zero, List.getD_cons_succ] <;> omega
  · intro hall
    have k0 := hall 0 (by omega)
    have k1 := hall 1 (by omega)
    have k2 := hall 2 (by omega)
    have k3 := hall 3 (by omega)
    have k4 := hall 4 (by omega)
    simp only [List.getD_cons_zero, List.getD_cons_succ] at k0 k1 k2 k3 k4
    split_ifs <;> omega
  · intro hmax
    have hr0 : maxOfDays stats.commits_per_day_last_year / 5 = 0 :=
      Nat.div_eq_of_lt hmax
    rw [hr0]
    refine ⟨by norm_num, ?_, ?_⟩
    · intro hc
      split_ifs <;> omega
    · intro hc
      split_ifs <;> omega

def statsAllZero : RepositoryStats := initStats

/-- Witness for C7 at the all-zero per-day array (degenerate distribution)
and day counts 0 and 3. -/
theorem C7_witness :
    maxOfDays statsAllZero.commits_per_day_last_year < 5 ∧
    calculate_symbol_distribution statsAllZero = [0, 0, 0, 0, 0] ∧
    symbolIndexFor (calculate_symbol_distribution statsAllZero) 0 = 0 ∧
    symbolIndexFor (calculate_symbol_distribution statsAllZero) 3 = 4 := by
  have hmax : maxOfDays statsAllZero.commits_per_day_last_year < 5 := by
    have : maxOfDays statsAllZero.commits_per_day_last_year
        = maxOfDays (List.replicate 365 0) := rfl
    rw [this]
    have hz : ∀ n, maxOfDays (List.replicate n (0 : Nat)) = 0 := by
      intro n
      induction n with
      | zero => rfl
      | succ m ih =>
        show (List.replicate m 0).foldl (fun m c => if m < c then c else m)
          (if (0:Nat) < 0 then 0 else 0) = 0
        simpa [maxOfDays] using ih
    rw [hz]
    omega
  have h0 := (C7_symbol_binning statsAllZero 0).2.2.2.2 hmax
  have h3 := (C7_symbol_binning statsAllZero 3).2.2.2.2 hmax
  exact ⟨hmax, h0.1, h0.2.1 rfl, h3.2.2 (by omega)⟩

/-! ### Claim C8 -/

/-- Claim C8: with the commit graph enabled, after the derived pass
`commits_last_year` is the sum of the 365-slot per-day array, that sum is
at most `commit_count`, and `max_commits_a_day` is the maximum entry of
the array — an upper bound of every entry that is either 0 (in particular
when all buckets are zero) or itself an entry. -/
theorem C8_derived_metrics (args : AppArgs) (now : Nat) (cs : List Commit)
    (h : args.commit_graph = true) :
    (gather_stats args now cs).commits_last_year
      = ((gather_stats args now cs).commits_per_day_last_year).sum ∧
    (gather_stats args now cs).commits_last_year
      ≤ (gather_stats args now cs).commit_count ∧
    (∀ x ∈ (gather_stats args now cs).commits_per_day_last_year,
      x ≤ (gather_stats args now cs).max_commits_a_day) ∧
    ((gather_stats args now cs).max_commits_a_day = 0 ∨
      (gather_stats args now cs).max_commits_a_day
        ∈ (gather_stats args now cs).commits_per_day_last_year) := by
  unfold gather_stats
  obtain ⟨hmax, hcly, hday, _, hcount, _, _, _⟩ := postPass_graph args
    ((cs.foldl (stepCommit args now) initLoopState).stats) h
  rw [hmax, hcly, hday, hcount]
  have hloop_cly :
      (cs.foldl (stepCommit args now) initLoopState).stats.commits_last_year
        = 0 := by
    rw [foldl_step_cly]
    rfl
  have hsum_le := foldl_step_day_sum_le args now cs initLoopState
  have hcount_eq := foldl_step_count args now cs initLoopState
  have hrepl : ∀ n : Nat, (List.replicate n (0 : Nat)).sum = 0 := by
    intro n
    induction n with
    | zero => rfl
    | succ m ih => simp [List.replicate, ih]
  have hinit_sum :
      initLoopState.stats.commits_per_day_last_year.sum = 0 := hrepl 365
  have hinit_count : initLoopState.stats.commit_count = 0 := rfl
  refine ⟨by omega, by omega, ?_, ?_⟩
  · intro x hx
    exact le_listMax_of_mem hx
  · exact listMax_eq_zero_or_mem _

/-- Witness for C8 on the empty stream with the commit graph enabled. -/
theorem C8_witness :
    argsCG.commit_graph = true ∧
    ((gather_stats argsCG 0 []).commits_last_year
      = ((gather_stats argsCG 0 []).commits_per_day_last_year).sum ∧
    (gather_stats argsCG 0 []).commits_last_year
      ≤ (gather_stats argsCG 0 []).commit_count ∧
    (∀ x ∈ (gather_stats argsCG 0 []).commits_per_day_last_year,
      x ≤ (gather_stats argsCG 0 []).max_commits_a_day) ∧
    ((gather_stats argsCG 0 []).max_commits_a_day = 0 ∨
      (gather_stats argsCG 0 []).max_commits_a_day
        ∈ (gather_stats argsCG 0 []).commits_per_day_last_year)) :=
  ⟨rfl, C8_derived_metrics argsCG 0 [] rfl⟩

/-! ### Claim C9 -/

/-- Claim C9: every calendar-day write uses index
`(timestamp / 86400) % 365` and every weekday write uses the
days-from-Monday index; both index functions always land inside the
bounds (365 and 7), and the two arrays keep their lengths 365 and 7
through any run of the pass, so no write is out of bounds. -/
theorem C9_write_bounds :
    (∀ t, dayOfYearIndex t < 365) ∧
    (∀ t, weekdayIndex t < 7) ∧
    (∀ (args : AppArgs) (now : Nat) (cs : List Commit),
      ((gather_stats args now cs).commits_per_day_last_year).length = 365 ∧
      ((gather_stats args now cs).commits_per_weekday).length = 7) := by
  refine ⟨dayOfYearIndex_lt, weekdayIndex_lt, ?_⟩
  intro args now cs
  unfold gather_stats
  rw [postPass_day, postPass_weekday]
  constructor
  · rw [foldl_step_day_length]
    show (List.replicate 365 (0 : Nat)).length = 365
    exact List.length_replicate 365 0
  · rw [foldl_step_weekday_length]
    show (List.replicate 7 (0 : Nat)).length = 7
    exact List.length_replicate 7 0

/-! ### Claim C10 -/

theorem u64wrapSub_of_le (a b : Nat) (ha : a < 2 ^ 64) (h : b ≤ a) :
    u64wrapSub a b = a - b := by
  unfold u64wrapSub u64
  have hb : b < 2 ^ 64 := lt_of_le_of_lt h ha
  rw [Nat.mod_eq_of_lt ha, Nat.mod_eq_of_lt hb]
  have he : a + (2 ^ 64 - b) = (a - b) + 2 ^ 64 := by omega
  rw [he, Nat.add_mod_right, Nat.mod_eq_of_lt (by omega)]

def argsExt : AppArgs :=
  { general_overview := true, extended_overview := true, pie_chart := false,
    commit_graph := false, weekday_stats := false }

def delCommit : Commit :=
  { author_name := some ("A"), timestamp := 1000,
    parent_diff := some (1, 0, 5) }

set_option maxRecDepth 8000 in
/-- Claim C10: the extended overview's total-lines delta is the unguarded
`usize` subtraction `total_lines_inserted - total_lines_removed`, correct
exactly under the precondition `removed <= inserted`; a history that
deletes more lines than it inserts (here one commit whose diff removes 5
lines and inserts none) drives the subtraction into wrap-around:
the printed delta is `2^64 - 5`. -/
theorem C10_lines_delta (stats : RepositoryStats)
    (ha : stats.total_lines_inserted < 2 ^ 64)
    (h : stats.total_lines_removed ≤ stats.total_lines_inserted) :
    total_lines_delta stats
      = stats.total_lines_inserted - stats.total_lines_removed ∧
    ((gather_stats argsExt 0 [delCommit]).total_lines_inserted
        < (gather_stats argsExt 0 [delCommit]).total_lines_removed ∧
      total_lines_delta (gather_stats argsExt 0 [delCommit]) = 2 ^ 64 - 5) := by
  refine ⟨u64wrapSub_of_le _ _ ha h, by decide, by decide⟩

/-- Witness for C10's guarded direction at the freshly initialised stats
(both totals zero). -/
theorem C10_witness :
    initStats.total_lines_inserted < 2 ^ 64 ∧
    initStats.total_lines_removed ≤ initStats.total_lines_inserted ∧
    total_lines_delta initStats
      = initStats.total_lines_inserted - initStats.total_lines_removed :=
  ⟨by decide, by decide, (C10_lines_delta initStats (by decide) (by decide)).1⟩

end Repolyzer
